import Mathlib

/-!
Shallow embedding of the matrix module of the ray-tracing repository
(file src/matrix.rs).  Floating-point arithmetic (f64) is modelled by exact
rational arithmetic; partial operations (Rust panics: out-of-range indexing
and inversion of a non-invertible matrix) are modelled by Option, with none
standing for the panic.
-/

namespace RayTracing

/-- the element type of all matrices (source: type Elem = f64, modelled exactly). -/
abbrev Elem : Type := ℚ

/-- source to_index: flat offset of (y, x) in row-major order. -/
def to_index (size y x : Nat) : Nat :=
  y * size + x

/-- source to_yx: (row, column) of a flat offset. -/
def to_yx (size i : Nat) : Nat × Nat :=
  (i / size, i % size)

/-- source Matrix2x2: 4 elements in row-major order. -/
structure Matrix2x2 where
  data : Fin 4 → Elem

/-- source Matrix2x2 det: data[0]*data[3] - data[1]*data[2]. -/
def Matrix2x2.det (m : Matrix2x2) : Elem :=
  m.data ⟨0, by decide⟩ * m.data ⟨3, by decide⟩ -
    m.data ⟨1, by decide⟩ * m.data ⟨2, by decide⟩

/-- source Matrix3x3: 9 elements in row-major order. -/
structure Matrix3x3 where
  data : Fin 9 → Elem

namespace Matrix3x3

/-- the flat indices kept by Matrix3x3 submatrix: enumerate the 9 entries in
order, keep those whose (row, column) avoids the deleted row and column. -/
def keptIndices (row col : Nat) : List (Fin 9) :=
  (List.finRange 9).filter fun i =>
    decide ((to_yx 3 i.val).1 ≠ row ∧ (to_yx 3 i.val).2 ≠ col)

/-- source Matrix3x3 submatrix: filter out one row and one column, collect and
convert to a fixed-size 4-element array; the unwrap of the conversion (a panic
when the collected length is not 4) is modelled by none. -/
def submatrix (m : Matrix3x3) (row col : Nat) : Option Matrix2x2 :=
  let l := (keptIndices row col).map m.data
  if h : l.length = 4 then
    some ⟨fun i => l.get ⟨i.val, by omega⟩⟩
  else
    none

/-- source Matrix3x3 minor: determinant of the submatrix. -/
def minor (m : Matrix3x3) (row col : Nat) : Option Elem :=
  (m.submatrix row col).map Matrix2x2.det

/-- source Matrix3x3 cofactor: the minor, negated when row+col is odd. -/
def cofactor (m : Matrix3x3) (row col : Nat) : Option Elem :=
  (m.minor row col).map fun v =>
    (if (row + col) % 2 = 1 then (-1 : Elem) else 1) * v

theorem keptIndices3_length (row col : Nat) (hr : row < 3) (hc : col < 3) :
    (keptIndices row col).length = 4 := by
  interval_cases row <;> interval_cases col <;> decide

theorem cofactor3_isSome (m : Matrix3x3) (row col : Nat)
    (hr : row < 3) (hc : col < 3) : (m.cofactor row col).isSome := by
  have h : ((keptIndices row col).map m.data).length = 4 := by
    rw [List.length_map]; exact keptIndices3_length row col hr hc
  simp [cofactor, minor, submatrix, h]

/-- source Matrix3x3 det: expansion along row 0, summing data[i] * cofactor(0, i)
for i in 0..3; the in-range cofactors always succeed. -/
def det (m : Matrix3x3) : Elem :=
  (((List.finRange 3).map fun i =>
    m.data (Fin.castLE (by decide) i) *
      (m.cofactor 0 i.val).get (cofactor3_isSome m 0 i.val (by decide) i.isLt)).sum)

end Matrix3x3

/-- source Tuple4 (external collaborator): four named real components. -/
structure Tuple4 where
  x : Elem
  y : Elem
  z : Elem
  w : Elem

/-- source Tuple4 new. -/
def Tuple4.new (x y z w : Elem) : Tuple4 :=
  ⟨x, y, z, w⟩

/-- source Matrix4x4: 16 elements in row-major order. -/
structure Matrix4x4 where
  data : Fin 16 → Elem

namespace Matrix4x4

/-- source Matrix4x4 PRECISION = 1e-12. -/
def PRECISION : Elem := 1 / 1000000000000

/-- flat index of (y, x) for the 4x4 order, as a Fin 16. -/
def toI (y x : Fin 4) : Fin 16 :=
  ⟨to_index 4 y.val x.val, by have hy := y.isLt; have hx := x.isLt; simp only [to_index]; omega⟩

/-- source Matrix4x4 new. -/
def new (data : Fin 16 → Elem) : Matrix4x4 :=
  ⟨data⟩

/-- source Matrix4x4 zero: all-zero matrix. -/
def zero : Matrix4x4 :=
  ⟨fun _ => 0⟩

/-- source Matrix4x4 identity: start from zero, set offset i*(N+1) to 1 for
i in 0..4. -/
def identity : Matrix4x4 :=
  ⟨(List.finRange 4).foldl
    (fun d i => Function.update d ⟨i.val * (4 + 1), by have := i.isLt; omega⟩ 1)
    zero.data⟩

/-- source Matrix4x4 get: compute the flat offset and index the 16-element
array; the panic on an offset outside the array is modelled by none. -/
def get (m : Matrix4x4) (y x : Nat) : Option Elem :=
  if h : to_index 4 y x < 16 then some (m.data ⟨to_index 4 y x, h⟩) else none

/-- one in-place swap of two cells of the data array (source data.swap). -/
def swapIdx (d : Fin 16 → Elem) (a b : Fin 16) : Fin 16 → Elem :=
  fun k => if k = a then d b else if k = b then d a else d k

/-- the (y, x) pairs visited by the transpose double loop:
y in 0..4, x in y..4, in iteration order. -/
def upperPairs : List (Fin 4 × Fin 4) :=
  (List.finRange 4).flatMap fun y =>
    ((List.finRange 4).filter fun x => decide (y ≤ x)).map fun x => (y, x)

/-- source Matrix4x4 transpose: copy the data and swap cell (x,y) with cell
(y,x) for every pair with x at or after y. -/
def transpose (m : Matrix4x4) : Matrix4x4 :=
  ⟨upperPairs.foldl (fun d p => swapIdx d (toI p.2 p.1) (toI p.1 p.2)) m.data⟩

/-- the flat indices kept by Matrix4x4 submatrix: enumerate the 16 entries in
order, keep those whose (row, column) avoids the deleted row and column. -/
def keptIndices (row col : Nat) : List (Fin 16) :=
  (List.finRange 16).filter fun i =>
    decide ((to_yx 4 i.val).1 ≠ row ∧ (to_yx 4 i.val).2 ≠ col)

/-- source Matrix4x4 submatrix: filter out one row and one column, collect and
convert to a fixed-size 9-element array; the unwrap of the conversion (a panic
when the collected length is not 9) is modelled by none. -/
def submatrix (m : Matrix4x4) (row col : Nat) : Option Matrix3x3 :=
  let l := (keptIndices row col).map m.data
  if h : l.length = 9 then
    some ⟨fun i => l.get ⟨i.val, by omega⟩⟩
  else
    none

/-- source Matrix4x4 minor: determinant of the submatrix. -/
def minor (m : Matrix4x4) (row col : Nat) : Option Elem :=
  (m.submatrix row col).map Matrix3x3.det

/-- source Matrix4x4 cofactor: the minor, negated when row+col is odd. -/
def cofactor (m : Matrix4x4) (row col : Nat) : Option Elem :=
  (m.minor row col).map fun v =>
    (if (row + col) % 2 = 1 then (-1 : Elem) else 1) * v

theorem keptIndices_length (row col : Nat) (hr : row < 4) (hc : col < 4) :
    (keptIndices row col).length = 9 := by
  interval_cases row <;> interval_cases col <;> decide

theorem cofactor_isSome (m : Matrix4x4) (row col : Nat)
    (hr : row < 4) (hc : col < 4) : (m.cofactor row col).isSome := by
  have h : ((keptIndices row col).map m.data).length = 9 := by
    rw [List.length_map]; exact keptIndices_length row col hr hc
  simp [cofactor, minor, submatrix, h]

/-- source Matrix4x4 det: expansion along row 0, summing data[i] * cofactor(0, i)
for i in 0..4; the in-range cofactors always succeed. -/
def det (m : Matrix4x4) : Elem :=
  (((List.finRange 4).map fun i =>
    m.data (Fin.castLE (by decide) i) *
      (m.cofactor 0 i.val).get (cofactor_isSome m 0 i.val (by decide) i.isLt)).sum)

/-- source Matrix4x4 is_invertible_with_det: the determinant together with the
epsilon test |det| >= PRECISION. -/
def is_invertible_with_det (m : Matrix4x4) : Bool × Elem :=
  (decide (PRECISION ≤ |m.det|), m.det)

/-- source Matrix4x4 is_invertible. -/
def is_invertible (m : Matrix4x4) : Bool :=
  m.is_invertible_with_det.1

/-- the (y, x) pairs visited by the inverse (and multiplication) double loop:
y in 0..4, x in 0..4, in row-major iteration order. -/
def allPairs : List (Fin 4 × Fin 4) :=
  (List.finRange 4).flatMap fun y => (List.finRange 4).map fun x => (y, x)

/-- the data array built by the inverse loop: starting from zero, cell (x, y)
receives cofactor(y, x) / det, all cofactors and the determinant computed from
the original matrix. -/
def inverseData (m : Matrix4x4) : Fin 16 → Elem :=
  allPairs.foldl
    (fun d p =>
      Function.update d (toI p.2 p.1)
        ((m.cofactor p.1.val p.2.val).get
          (cofactor_isSome m p.1.val p.2.val p.1.isLt p.2.isLt) / m.det))
    zero.data

/-- source Matrix4x4 inverse: panic (modelled by none) when not invertible,
otherwise the adjugate-transpose construction. -/
def inverse (m : Matrix4x4) : Option Matrix4x4 :=
  if m.is_invertible_with_det.1 then some ⟨inverseData m⟩ else none

/-- source Mul of Matrix4x4 by Matrix4x4: cell (y, x) of the result is the dot
product of row y of the left factor with column x of the right factor. -/
def mul (a b : Matrix4x4) : Matrix4x4 :=
  ⟨allPairs.foldl
    (fun d p =>
      Function.update d (toI p.1 p.2)
        (((List.finRange 4).map fun k => a.data (toI p.1 k) * b.data (toI k p.2)).sum))
    (fun _ => 0)⟩

/-- source Mul of Matrix4x4 by Tuple4: each row of the matrix is dotted with
the column vector (x, y, z, w). -/
def mulTuple (m : Matrix4x4) (t : Tuple4) : Tuple4 :=
  Tuple4.new
    (m.data (toI 0 0) * t.x + m.data (toI 0 1) * t.y +
      m.data (toI 0 2) * t.z + m.data (toI 0 3) * t.w)
    (m.data (toI 1 0) * t.x + m.data (toI 1 1) * t.y +
      m.data (toI 1 2) * t.z + m.data (toI 1 3) * t.w)
    (m.data (toI 2 0) * t.x + m.data (toI 2 1) * t.y +
      m.data (toI 2 2) * t.z + m.data (toI 2 3) * t.w)
    (m.data (toI 3 0) * t.x + m.data (toI 3 1) * t.y +
      m.data (toI 3 2) * t.z + m.data (toI 3 3) * t.w)

end Matrix4x4

/-!
Spec-side formulation of the minor/cofactor/determinant family, following the
words of the specification: the submatrix deletes the given row and column
preserving the order of the remaining entries (rendered by index skipping),
the cofactor is the signed minor, and every determinant is the Laplace
expansion along row 0 of the next-smaller order.
-/

/-- index renumbering after deleting row (or column) r: entry i of the
smaller matrix comes from entry i of the original when i is before r, and
from entry i+1 otherwise. -/
def skip (r i : Nat) : Nat :=
  if i < r then i else i + 1

theorem skip_lt {n r i : Nat} (hi : i < n) : skip r i < n + 1 := by
  simp only [skip]; split <;> omega

/-- spec formulation of the Matrix3x3 submatrix: delete row r and column c,
preserving the order of the remaining entries. -/
def submatrix3Spec (m : Matrix3x3) (r c : Fin 3) : Matrix2x2 :=
  ⟨fun i =>
    m.data ⟨to_index 3 (skip r.val (i.val / 2)) (skip c.val (i.val % 2)), by
      have h1 : i.val / 2 < 2 := by omega
      have h2 : i.val % 2 < 2 := by omega
      have h3 := skip_lt (r := r.val) h1
      have h4 := skip_lt (r := c.val) h2
      simp only [to_index]; omega⟩⟩

/-- spec formulation of the Matrix3x3 minor. -/
def minor3Spec (m : Matrix3x3) (r c : Fin 3) : Elem :=
  (submatrix3Spec m r c).det

/-- spec formulation of the Matrix3x3 cofactor: the signed minor, the sign
being -1 exactly when r+c is odd. -/
def cofactor3Spec (m : Matrix3x3) (r c : Fin 3) : Elem :=
  (if (r.val + c.val) % 2 = 1 then (-1 : Elem) else 1) * minor3Spec m r c

/-- spec formulation of the Matrix3x3 determinant: Laplace expansion along
row 0. -/
def det3Spec (m : Matrix3x3) : Elem :=
  ∑ c : Fin 3, m.data ⟨c.val, by omega⟩ * cofactor3Spec m 0 c

/-- spec formulation of the Matrix4x4 submatrix: delete row r and column c,
preserving the order of the remaining entries. -/
def submatrix4Spec (m : Matrix4x4) (r c : Fin 4) : Matrix3x3 :=
  ⟨fun i =>
    m.data ⟨to_index 4 (skip r.val (i.val / 3)) (skip c.val (i.val % 3)), by
      have h1 : i.val / 3 < 3 := by omega
      have h2 : i.val % 3 < 3 := by omega
      have h3 := skip_lt (r := r.val) h1
      have h4 := skip_lt (r := c.val) h2
      simp only [to_index]; omega⟩⟩

/-- spec formulation of the Matrix4x4 minor: an order-3 determinant. -/
def minor4Spec (m : Matrix4x4) (r c : Fin 4) : Elem :=
  det3Spec (submatrix4Spec m r c)

/-- spec formulation of the Matrix4x4 cofactor: the signed minor, the sign
being -1 exactly when r+c is odd. -/
def cofactor4Spec (m : Matrix4x4) (r c : Fin 4) : Elem :=
  (if (r.val + c.val) % 2 = 1 then (-1 : Elem) else 1) * minor4Spec m r c

/-- spec formulation of the Matrix4x4 determinant: Laplace expansion strictly
along row 0. -/
def det4Spec (m : Matrix4x4) : Elem :=
  ∑ c : Fin 4, m.data ⟨c.val, by omega⟩ * cofactor4Spec m 0 c

/-! Bridge lemmas: the source functions agree with the spec formulation on
in-range indices. -/

theorem Matrix3x3.cofactor3_eq_spec (m : Matrix3x3) (r c : Nat)
    (hr : r < 3) (hc : c < 3) :
    m.cofactor r c = some (cofactor3Spec m ⟨r, hr⟩ ⟨c, hc⟩) := by
  interval_cases r <;> interval_cases c <;> rfl

theorem Matrix3x3.det3_eq_spec (m : Matrix3x3) : m.det = det3Spec m := rfl

theorem Matrix4x4.cofactor_eq_spec (m : Matrix4x4) (r c : Nat)
    (hr : r < 4) (hc : c < 4) :
    m.cofactor r c = some (cofactor4Spec m ⟨r, hr⟩ ⟨c, hc⟩) := by
  interval_cases r <;> interval_cases c <;> rfl

theorem Matrix4x4.det_eq_spec (m : Matrix4x4) : m.det = det4Spec m := rfl

namespace Matrix4x4

/-! Pointwise evaluation of the loop-built data arrays. -/

theorem mul_data_list (a b : Matrix4x4) (y x : Fin 4) :
    (a.mul b).data (toI y x) =
      ((List.finRange 4).map fun k => a.data (toI y k) * b.data (toI k x)).sum := by
  fin_cases y <;> fin_cases x <;> rfl

theorem sum_finRange4 (f : Fin 4 → Elem) :
    ((List.finRange 4).map f).sum = f 0 + f 1 + f 2 + f 3 := by
  show f 0 + (f 1 + (f 2 + (f 3 + 0))) = _
  ring

theorem identity_data (y x : Fin 4) :
    Matrix4x4.identity.data (toI y x) = if y = x then 1 else 0 := by
  fin_cases y <;> fin_cases x <;> rfl

theorem transpose_data (m : Matrix4x4) (y x : Fin 4) :
    m.transpose.data (toI y x) = m.data (toI x y) := by
  fin_cases y <;> fin_cases x <;> rfl

theorem inverseData_eval (m : Matrix4x4) (y x : Fin 4) :
    inverseData m (toI y x) = cofactor4Spec m x y / m.det := by
  fin_cases y <;> fin_cases x <;> rfl

theorem data_ext {a b : Matrix4x4}
    (h : ∀ y x : Fin 4, a.data (toI y x) = b.data (toI y x)) : a = b := by
  cases a; cases b
  congr 1
  funext j
  have hj : toI ⟨j.val / 4, by omega⟩ ⟨j.val % 4, by omega⟩ = j := by
    apply Fin.ext; simp [toI, to_index]; omega
  rw [← hj]
  exact h _ _

theorem inverse_of_invertible (m : Matrix4x4) (h : m.is_invertible = true) :
    m.inverse = some ⟨inverseData m⟩ := by
  simp only [inverse, is_invertible] at *
  rw [h]
  simp

theorem inverse_of_not_invertible (m : Matrix4x4) (h : m.is_invertible = false) :
    m.inverse = none := by
  simp only [inverse, is_invertible] at *
  rw [h]
  simp

theorem det_ne_zero_of_invertible (m : Matrix4x4) (h : m.is_invertible = true) :
    m.det ≠ 0 := by
  simp only [is_invertible, is_invertible_with_det, decide_eq_true_eq] at h
  intro h0
  rw [h0] at h
  simp only [abs_zero] at h
  have : (0 : Elem) < PRECISION := by norm_num [PRECISION]
  linarith

end Matrix4x4

/-- the embedding of a Matrix4x4 into Mathlib matrices, for the algebraic
facts about inversion. -/
def toMat (m : Matrix4x4) : Matrix (Fin 4) (Fin 4) Elem :=
  Matrix.of fun y x => m.data (Matrix4x4.toI y x)

/-- the embedding of a Matrix3x3 into Mathlib matrices. -/
def toMat3 (m : Matrix3x3) : Matrix (Fin 3) (Fin 3) Elem :=
  Matrix.of fun y x =>
    m.data ⟨to_index 3 y.val x.val, by
      have hy := y.isLt; have hx := x.isLt; simp only [to_index]; omega⟩

theorem det3Spec_eq_mat (m : Matrix3x3) : det3Spec m = (toMat3 m).det := by
  rw [Matrix.det_fin_three]
  simp [det3Spec, Fin.sum_univ_three, cofactor3Spec, minor3Spec, submatrix3Spec,
    Matrix2x2.det, toMat3, to_index, skip, show (((3 : Fin 4)) : Nat) = 3 from rfl]
  ring

theorem submatrix4Spec_toMat3 (m : Matrix4x4) (r c : Fin 4) :
    toMat3 (submatrix4Spec m r c) = (toMat m).submatrix r.succAbove c.succAbove := by
  fin_cases r <;> fin_cases c <;> (ext y x; fin_cases y <;> fin_cases x <;> rfl)

theorem neg_one_pow_ite (n : Nat) :
    ((-1 : Elem) ^ n) = if n % 2 = 1 then -1 else 1 := by
  rcases Nat.even_or_odd n with h | h
  · rw [Even.neg_one_pow h]; simp [Nat.even_iff.mp h]
  · rw [Odd.neg_one_pow h]; simp [Nat.odd_iff.mp h]

theorem adjugate_eq (m : Matrix4x4) (y x : Fin 4) :
    (toMat m).adjugate y x = cofactor4Spec m x y := by
  rw [Matrix.adjugate_fin_succ_eq_det_submatrix, ← submatrix4Spec_toMat3,
    ← det3Spec_eq_mat, cofactor4Spec, minor4Spec, neg_one_pow_ite]

theorem det_eq_mat (m : Matrix4x4) : m.det = (toMat m).det := by
  rw [Matrix4x4.det_eq_spec, Matrix.det_succ_row_zero]
  unfold det4Spec
  apply Finset.sum_congr rfl
  intro c _
  rw [← Fin.succAbove_zero, ← submatrix4Spec_toMat3, ← det3Spec_eq_mat,
    cofactor4Spec, minor4Spec, neg_one_pow_ite]
  have : (toMat m) 0 c = m.data ⟨c.val, by omega⟩ := by
    show m.data (Matrix4x4.toI 0 c) = _
    congr 1
    apply Fin.ext
    simp [Matrix4x4.toI, to_index]
  rw [this]
  simp only [Fin.val_zero, Nat.zero_add]
  ring

theorem toMat_mul (a b : Matrix4x4) : toMat (a.mul b) = toMat a * toMat b := by
  ext y x
  rw [Matrix.mul_apply, Fin.sum_univ_four]
  show (a.mul b).data (Matrix4x4.toI y x) = _
  rw [Matrix4x4.mul_data_list, Matrix4x4.sum_finRange4]
  rfl

theorem toMat_identity : toMat Matrix4x4.identity = 1 := by
  ext y x
  show Matrix4x4.identity.data (Matrix4x4.toI y x) = _
  rw [Matrix4x4.identity_data, Matrix.one_apply]

theorem toMat_inj {a b : Matrix4x4} (h : toMat a = toMat b) : a = b :=
  Matrix4x4.data_ext fun y x => congrFun (congrFun h y) x

theorem inverse_invertible (m i : Matrix4x4) (h : m.inverse = some i) :
    m.is_invertible = true := by
  by_contra hc
  rw [Matrix4x4.inverse_of_not_invertible m (by simpa using hc)] at h
  exact Option.noConfusion h

theorem inverse_toMat (m i : Matrix4x4) (h : m.inverse = some i) :
    toMat i * toMat m = 1 := by
  have hinv := inverse_invertible m i h
  have hi : i = ⟨Matrix4x4.inverseData m⟩ := by
    have := Matrix4x4.inverse_of_invertible m hinv
    rw [h] at this
    exact Option.some.inj this
  have hdet := Matrix4x4.det_ne_zero_of_invertible m hinv
  have hdata : toMat i = (m.det)⁻¹ • (toMat m).adjugate := by
    ext y x
    show i.data (Matrix4x4.toI y x) = _
    rw [hi]
    show Matrix4x4.inverseData m (Matrix4x4.toI y x) = _
    rw [Matrix4x4.inverseData_eval, Matrix.smul_apply, adjugate_eq]
    rw [smul_eq_mul]
    field_simp
  rw [hdata, Matrix.smul_mul, Matrix.adjugate_mul, ← det_eq_mat, smul_smul,
    inv_mul_cancel₀ hdet, one_smul]

theorem inverse_inverse_eq (m i i2 : Matrix4x4)
    (h1 : m.inverse = some i) (h2 : i.inverse = some i2) : i2 = m := by
  have ha := inverse_toMat m i h1
  have hb := inverse_toMat i i2 h2
  apply toMat_inj
  calc toMat i2 = toMat i2 * 1 := by rw [mul_one]
    _ = toMat i2 * (toMat i * toMat m) := by rw [ha]
    _ = (toMat i2 * toMat i) * toMat m := by rw [mul_assoc]
    _ = 1 * toMat m := by rw [hb]
    _ = toMat m := one_mul _

/-- build a Matrix4x4 from a row-major list of 16 entries (test-vector helper). -/
def ofList (l : List Elem) : Matrix4x4 :=
  Matrix4x4.new fun i => l.getD i.val 0

/-- the 4x4 determinant test vector of the repository (expected det -4071). -/
def M4071 : Matrix4x4 :=
  ofList [-2, -8, 3, 5, -3, 1, 7, 3, 1, 2, -9, 6, -6, 7, 7, -9]

/-- the invertible test vector of the repository (det 532). -/
def Minv5 : Matrix4x4 :=
  ofList [-5, 2, 6, -8, 1, -5, 1, 8, 7, 7, -6, -7, 1, -3, 7, 4]

theorem Minv5_det : Minv5.det = 532 := by
  rw [Matrix4x4.det_eq_spec]
  simp [det4Spec, cofactor4Spec, minor4Spec, det3Spec, cofactor3Spec, minor3Spec,
    submatrix4Spec, submatrix3Spec, Matrix2x2.det, Fin.sum_univ_four, Fin.sum_univ_three,
    skip, to_index, Minv5, ofList, Matrix4x4.new, List.getD,
    show (((3 : Fin 4)) : Nat) = 3 from rfl]
  norm_num

theorem Minv5_invertible : Minv5.is_invertible = true := by
  simp only [Matrix4x4.is_invertible, Matrix4x4.is_invertible_with_det, Minv5_det,
    decide_eq_true_eq]
  norm_num [Matrix4x4.PRECISION]

theorem M4071_det : M4071.det = -4071 := by
  rw [Matrix4x4.det_eq_spec]
  simp [det4Spec, cofactor4Spec, minor4Spec, det3Spec, cofactor3Spec, minor3Spec,
    submatrix4Spec, submatrix3Spec, Matrix2x2.det, Fin.sum_univ_four, Fin.sum_univ_three,
    skip, to_index, M4071, ofList, Matrix4x4.new, List.getD,
    show (((3 : Fin 4)) : Nat) = 3 from rfl]
  norm_num

theorem submatrix_isSome (m : Matrix4x4) (row col : Nat)
    (hr : row < 4) (hc : col < 4) : ∃ s, m.submatrix row col = some s := by
  have h : ((Matrix4x4.keptIndices row col).map m.data).length = 9 := by
    rw [List.length_map]; exact Matrix4x4.keptIndices_length row col hr hc
  rw [Matrix4x4.submatrix]
  simp only [h]
  exact ⟨_, rfl⟩
namespace Claims

/-- C1: for every invertible matrix, inverse succeeds and stores
cofactor(row, col) / det at the transposed position (col, row); the
determinant and all cofactors are those of the original, unmodified input
(every operation here is a pure function of the input matrix). -/
theorem claim1_inverse_adjugate (m : Matrix4x4) (h : m.is_invertible = true)
    (row col : Nat) (hr : row < 4) (hc : col < 4) :
    ∃ inv cof, m.inverse = some inv ∧ m.cofactor row col = some cof ∧
      inv.get col row = some (cof / m.det) := by
  refine ⟨⟨Matrix4x4.inverseData m⟩, cofactor4Spec m ⟨row, hr⟩ ⟨col, hc⟩,
    Matrix4x4.inverse_of_invertible m h,
    Matrix4x4.cofactor_eq_spec m row col hr hc, ?_⟩
  rw [Matrix4x4.get, dif_pos (by simp only [to_index]; omega)]
  show some (Matrix4x4.inverseData m (Matrix4x4.toI ⟨col, hc⟩ ⟨row, hr⟩)) = _
  rw [Matrix4x4.inverseData_eval]

theorem claim1_witness :
    ∃ inv cof, Minv5.inverse = some inv ∧ Minv5.cofactor 1 0 = some cof ∧
      inv.get 0 1 = some (cof / Minv5.det) :=
  claim1_inverse_adjugate Minv5 Minv5_invertible 1 0 (by omega) (by omega)

/-- C4: the determinant is the Laplace expansion strictly along row 0 with
cofactors that negate the minor exactly when row+col is odd, and the test
vector [-2,-8,3,5,-3,1,7,3,1,2,-9,6,-6,7,7,-9] has determinant -4071. -/
theorem claim4_det_laplace_row0 :
    (∀ m : Matrix4x4, m.det = det4Spec m) ∧
    (∀ (m : Matrix4x4) (r c : Nat), r < 4 → c < 4 →
      ∃ mi, m.minor r c = some mi ∧
        m.cofactor r c = some ((if (r + c) % 2 = 1 then (-1 : Elem) else 1) * mi)) ∧
    M4071.det = -4071 := by
  refine ⟨Matrix4x4.det_eq_spec, ?_, M4071_det⟩
  intro m r c hr hc
  obtain ⟨s, hs⟩ := submatrix_isSome m r c hr hc
  refine ⟨s.det, ?_, ?_⟩
  · rw [Matrix4x4.minor, hs]; rfl
  · rw [Matrix4x4.cofactor, Matrix4x4.minor, hs]; rfl

theorem claim4_witness :
    ∃ mi, M4071.minor 1 0 = some mi ∧
      M4071.cofactor 1 0 = some ((if (1 + 0) % 2 = 1 then (-1 : Elem) else 1) * mi) :=
  claim4_det_laplace_row0.2.1 M4071 1 0 (by omega) (by omega)

end Claims
namespace Claims

/-- C6: multiplying by the identity on either side returns the original
matrix, and the identity sends every tuple to itself. -/
theorem claim6_identity_laws :
    ∀ m : Matrix4x4, m.mul Matrix4x4.identity = m ∧ Matrix4x4.identity.mul m = m ∧
      ∀ t : Tuple4, Matrix4x4.identity.mulTuple t = t := by
  intro m
  refine ⟨?_, ?_, ?_⟩
  · apply toMat_inj
    rw [toMat_mul, toMat_identity, mul_one]
  · apply toMat_inj
    rw [toMat_mul, toMat_identity, one_mul]
  · intro t
    cases t
    simp only [Matrix4x4.mulTuple, Tuple4.new,
      show Matrix4x4.identity.data (Matrix4x4.toI 0 0) = 1 from rfl,
      show Matrix4x4.identity.data (Matrix4x4.toI 0 1) = 0 from rfl,
      show Matrix4x4.identity.data (Matrix4x4.toI 0 2) = 0 from rfl,
      show Matrix4x4.identity.data (Matrix4x4.toI 0 3) = 0 from rfl,
      show Matrix4x4.identity.data (Matrix4x4.toI 1 0) = 0 from rfl,
      show Matrix4x4.identity.data (Matrix4x4.toI 1 1) = 1 from rfl,
      show Matrix4x4.identity.data (Matrix4x4.toI 1 2) = 0 from rfl,
      show Matrix4x4.identity.data (Matrix4x4.toI 1 3) = 0 from rfl,
      show Matrix4x4.identity.data (Matrix4x4.toI 2 0) = 0 from rfl,
      show Matrix4x4.identity.data (Matrix4x4.toI 2 1) = 0 from rfl,
      show Matrix4x4.identity.data (Matrix4x4.toI 2 2) = 1 from rfl,
      show Matrix4x4.identity.data (Matrix4x4.toI 2 3) = 0 from rfl,
      show Matrix4x4.identity.data (Matrix4x4.toI 3 0) = 0 from rfl,
      show Matrix4x4.identity.data (Matrix4x4.toI 3 1) = 0 from rfl,
      show Matrix4x4.identity.data (Matrix4x4.toI 3 2) = 0 from rfl,
      show Matrix4x4.identity.data (Matrix4x4.toI 3 3) = 1 from rfl]
    congr 1 <;> ring

end Claims
theorem keptIndices_clip (row col : Nat) :
    Matrix4x4.keptIndices row col = Matrix4x4.keptIndices (min row 4) (min col 4) := by
  unfold Matrix4x4.keptIndices
  apply List.filter_congr
  intro i _
  have hi := i.isLt
  simp only [decide_eq_decide, to_yx]
  constructor <;> intro h <;> constructor <;> omega

theorem keptIndices_length_ne (row col : Nat) (h : 4 ≤ row ∨ 4 ≤ col) :
    (Matrix4x4.keptIndices row col).length ≠ 9 := by
  obtain ⟨a, b, ha, hb, hor, hab⟩ :
      ∃ a b, a ≤ 4 ∧ b ≤ 4 ∧ (a = 4 ∨ b = 4) ∧
        Matrix4x4.keptIndices row col = Matrix4x4.keptIndices a b :=
    ⟨min row 4, min col 4, by omega, by omega, by omega, keptIndices_clip row col⟩
  rw [hab]
  interval_cases a <;> interval_cases b <;> first | omega | decide

theorem submatrix_none (m : Matrix4x4) (row col : Nat) (h : 4 ≤ row ∨ 4 ≤ col) :
    m.submatrix row col = none := by
  have hl : ((Matrix4x4.keptIndices row col).map m.data).length ≠ 9 := by
    rw [List.length_map]; exact keptIndices_length_ne row col h
  rw [Matrix4x4.submatrix]
  simp only [hl]
  rfl

namespace Claims

/-- C10: submatrix (and with it minor and cofactor) fails by panic exactly on
out-of-range indices, because deleting row and column then keeps a number of
entries different from 9; for in-range indices it always succeeds. -/
theorem claim10_submatrix_out_of_range (m : Matrix4x4) (row col : Nat) :
    ((4 ≤ row ∨ 4 ≤ col) →
      (Matrix4x4.keptIndices row col).length ≠ 9 ∧
        m.submatrix row col = none ∧ m.minor row col = none ∧
        m.cofactor row col = none) ∧
    (row < 4 → col < 4 →
      (m.submatrix row col).isSome ∧ (m.minor row col).isSome ∧
        (m.cofactor row col).isSome) := by
  constructor
  · intro h
    have hs := submatrix_none m row col h
    refine ⟨keptIndices_length_ne row col h, hs, ?_, ?_⟩
    · rw [Matrix4x4.minor, hs]; rfl
    · rw [Matrix4x4.cofactor, Matrix4x4.minor, hs]; rfl
  · intro hr hc
    obtain ⟨s, hs⟩ := submatrix_isSome m row col hr hc
    refine ⟨by rw [hs]; rfl, by rw [Matrix4x4.minor, hs]; rfl, ?_⟩
    rw [Matrix4x4.cofactor, Matrix4x4.minor, hs]
    rfl

theorem claim10_witness :
    ((Matrix4x4.keptIndices 4 0).length ≠ 9 ∧
      M4071.submatrix 4 0 = none ∧ M4071.minor 4 0 = none ∧
      M4071.cofactor 4 0 = none) ∧
    ((M4071.submatrix 2 1).isSome ∧ (M4071.minor 2 1).isSome ∧
      (M4071.cofactor 2 1).isSome) :=
  ⟨(claim10_submatrix_out_of_range M4071 4 0).1 (Or.inl (by omega)),
    (claim10_submatrix_out_of_range M4071 2 1).2 (by omega) (by omega)⟩

end Claims
/-- a diagonal matrix with large entries: invertible, but its inverse has a
determinant whose absolute value is below PRECISION. -/
def Mdiag : Matrix4x4 :=
  ofList [10000, 0, 0, 0, 0, 10000, 0, 0, 0, 0, 10000, 0, 0, 0, 0, 10000]

/-- the exact inverse of Mdiag. -/
def MdiagI : Matrix4x4 :=
  ofList [1/10000, 0, 0, 0, 0, 1/10000, 0, 0, 0, 0, 1/10000, 0, 0, 0, 0, 1/10000]

theorem Mdiag_det : Mdiag.det = 10000000000000000 := by
  rw [Matrix4x4.det_eq_spec]
  simp [det4Spec, cofactor4Spec, minor4Spec, det3Spec, cofactor3Spec, minor3Spec,
    submatrix4Spec, submatrix3Spec, Matrix2x2.det, Fin.sum_univ_four, Fin.sum_univ_three,
    skip, to_index, Mdiag, ofList, Matrix4x4.new, List.getD,
    show (((3 : Fin 4)) : Nat) = 3 from rfl]
  norm_num

theorem Mdiag_invertible : Mdiag.is_invertible = true := by
  simp only [Matrix4x4.is_invertible, Matrix4x4.is_invertible_with_det, Mdiag_det,
    decide_eq_true_eq]
  norm_num [Matrix4x4.PRECISION]

theorem MdiagI_eq : (⟨Matrix4x4.inverseData Mdiag⟩ : Matrix4x4) = MdiagI := by
  apply Matrix4x4.data_ext
  intro y x
  show Matrix4x4.inverseData Mdiag (Matrix4x4.toI y x) = _
  rw [Matrix4x4.inverseData_eval, Mdiag_det]
  fin_cases y <;> fin_cases x <;>
    simp [cofactor4Spec, minor4Spec, det3Spec, cofactor3Spec, minor3Spec,
      submatrix4Spec, submatrix3Spec, Matrix2x2.det, Fin.sum_univ_three,
      skip, to_index, Mdiag, MdiagI, ofList, Matrix4x4.new, Matrix4x4.toI,
      show (((3 : Fin 4)) : Nat) = 3 from rfl,
      show (((3 : Fin 16)) : Nat) = 3 from rfl,
      show (((4 : Fin 16)) : Nat) = 4 from rfl,
      show (((5 : Fin 16)) : Nat) = 5 from rfl,
      show (((6 : Fin 16)) : Nat) = 6 from rfl,
      show (((7 : Fin 16)) : Nat) = 7 from rfl,
      show (((8 : Fin 16)) : Nat) = 8 from rfl,
      show (((9 : Fin 16)) : Nat) = 9 from rfl,
      show (((10 : Fin 16)) : Nat) = 10 from rfl,
      show (((11 : Fin 16)) : Nat) = 11 from rfl,
      show (((12 : Fin 16)) : Nat) = 12 from rfl,
      show (((13 : Fin 16)) : Nat) = 13 from rfl,
      show (((14 : Fin 16)) : Nat) = 14 from rfl,
      show (((15 : Fin 16)) : Nat) = 15 from rfl]
  all_goals norm_num

theorem MdiagI_det : MdiagI.det = 1 / 10000000000000000 := by
  rw [Matrix4x4.det_eq_spec]
  simp [det4Spec, cofactor4Spec, minor4Spec, det3Spec, cofactor3Spec, minor3Spec,
    submatrix4Spec, submatrix3Spec, Matrix2x2.det, Fin.sum_univ_four, Fin.sum_univ_three,
    skip, to_index, MdiagI, ofList, Matrix4x4.new, List.getD,
    show (((3 : Fin 4)) : Nat) = 3 from rfl]
  norm_num

theorem MdiagI_not_invertible : MdiagI.is_invertible = false := by
  simp only [Matrix4x4.is_invertible, Matrix4x4.is_invertible_with_det, MdiagI_det]
  rw [decide_eq_false_iff_not]
  rw [abs_of_pos (by norm_num)]
  norm_num [Matrix4x4.PRECISION]

/-- the identity matrix as an explicit value. -/
def Mid : Matrix4x4 :=
  ofList [1, 0, 0, 0, 0, 1, 0, 0, 0, 0, 1, 0, 0, 0, 0, 1]

theorem Mid_det : Mid.det = 1 := by
  rw [Matrix4x4.det_eq_spec]
  simp [det4Spec, cofactor4Spec, minor4Spec, det3Spec, cofactor3Spec, minor3Spec,
    submatrix4Spec, submatrix3Spec, Matrix2x2.det, Fin.sum_univ_four, Fin.sum_univ_three,
    skip, to_index, Mid, ofList, Matrix4x4.new, List.getD,
    show (((3 : Fin 4)) : Nat) = 3 from rfl]

theorem Mid_invertible : Mid.is_invertible = true := by
  simp only [Matrix4x4.is_invertible, Matrix4x4.is_invertible_with_det, Mid_det,
    decide_eq_true_eq]
  norm_num [Matrix4x4.PRECISION]

theorem MidI_eq : (⟨Matrix4x4.inverseData Mid⟩ : Matrix4x4) = Mid := by
  apply Matrix4x4.data_ext
  intro y x
  show Matrix4x4.inverseData Mid (Matrix4x4.toI y x) = _
  rw [Matrix4x4.inverseData_eval, Mid_det]
  fin_cases y <;> fin_cases x <;>
    simp [cofactor4Spec, minor4Spec, det3Spec, cofactor3Spec, minor3Spec,
      submatrix4Spec, submatrix3Spec, Matrix2x2.det, Fin.sum_univ_three,
      skip, to_index, Mid, ofList, Matrix4x4.new, Matrix4x4.toI,
      show (((3 : Fin 4)) : Nat) = 3 from rfl,
      show (((3 : Fin 16)) : Nat) = 3 from rfl,
      show (((4 : Fin 16)) : Nat) = 4 from rfl,
      show (((5 : Fin 16)) : Nat) = 5 from rfl,
      show (((6 : Fin 16)) : Nat) = 6 from rfl,
      show (((7 : Fin 16)) : Nat) = 7 from rfl,
      show (((8 : Fin 16)) : Nat) = 8 from rfl,
      show (((9 : Fin 16)) : Nat) = 9 from rfl,
      show (((10 : Fin 16)) : Nat) = 10 from rfl,
      show (((11 : Fin 16)) : Nat) = 11 from rfl,
      show (((12 : Fin 16)) : Nat) = 12 from rfl,
      show (((13 : Fin 16)) : Nat) = 13 from rfl,
      show (((14 : Fin 16)) : Nat) = 14 from rfl,
      show (((15 : Fin 16)) : Nat) = 15 from rfl]

namespace Claims

/-- C5 fails as stated: Mdiag is invertible, yet inverse(inverse(Mdiag))
panics, because the inverse of Mdiag has determinant 1e-16, below PRECISION. -/
theorem claim5_counterexample :
    Mdiag.is_invertible = true ∧
      ∃ i, Mdiag.inverse = some i ∧ i.inverse = none := by
  refine ⟨Mdiag_invertible, ⟨Matrix4x4.inverseData Mdiag⟩,
    Matrix4x4.inverse_of_invertible Mdiag Mdiag_invertible, ?_⟩
  rw [MdiagI_eq]
  exact Matrix4x4.inverse_of_not_invertible MdiagI MdiagI_not_invertible

/-- C5 amended: whenever both inversions succeed, every entry of the double
inverse differs from the original entry by less than 1e-12 (in the exact
arithmetic model they are equal). -/
theorem claim5_amended (m i i2 : Matrix4x4) (h1 : m.inverse = some i)
    (h2 : i.inverse = some i2) (r c : Nat) (hr : r < 4) (hc : c < 4) :
    ∃ a b, m.get r c = some a ∧ i2.get r c = some b ∧
      |b - a| < Matrix4x4.PRECISION := by
  have he : i2 = m := inverse_inverse_eq m i i2 h1 h2
  have hidx : to_index 4 r c < 16 := by simp only [to_index]; omega
  refine ⟨m.data ⟨to_index 4 r c, hidx⟩, m.data ⟨to_index 4 r c, hidx⟩, ?_, ?_, ?_⟩
  · rw [Matrix4x4.get, dif_pos hidx]
  · rw [he, Matrix4x4.get, dif_pos hidx]
  · simp only [sub_self, abs_zero]
    norm_num [Matrix4x4.PRECISION]

theorem claim5_witness :
    ∃ a b, Mid.get 0 0 = some a ∧
      (Matrix4x4.mk (Matrix4x4.inverseData Mid)).get 0 0 = some b ∧
      |b - a| < Matrix4x4.PRECISION :=
  claim5_amended Mid ⟨Matrix4x4.inverseData Mid⟩ ⟨Matrix4x4.inverseData Mid⟩
    (Matrix4x4.inverse_of_invertible Mid Mid_invertible)
    (by rw [MidI_eq, Matrix4x4.inverse_of_invertible Mid Mid_invertible, MidI_eq])
    0 0 (by omega) (by omega)

end Claims

namespace Claims

/-- C2: is_invertible is true exactly when the absolute value of the
determinant is at least PRECISION = 1e-12 (an epsilon comparison, not an
exact-zero test). -/
theorem claim2_is_invertible_iff :
    Matrix4x4.PRECISION = 1 / 1000000000000 ∧
      ∀ m : Matrix4x4, m.is_invertible = true ↔ Matrix4x4.PRECISION ≤ |m.det| := by
  refine ⟨rfl, fun m => ?_⟩
  simp [Matrix4x4.is_invertible, Matrix4x4.is_invertible_with_det]

/-- C3: inverse fails (none, modelling the panic) exactly when is_invertible
is false, and on the success path a complete new matrix is returned; no
partial result exists. -/
theorem claim3_inverse_all_or_nothing (m : Matrix4x4) :
    (m.inverse = none ↔ m.is_invertible = false) ∧
      (m.is_invertible = true → ∃ r, m.inverse = some r) := by
  constructor
  · constructor
    · intro h
      cases hb : m.is_invertible with
      | false => rfl
      | true => rw [Matrix4x4.inverse_of_invertible m hb] at h; exact Option.noConfusion h
    · intro h
      exact Matrix4x4.inverse_of_not_invertible m h
  · intro h
    exact ⟨_, Matrix4x4.inverse_of_invertible m h⟩

theorem claim3_witness : ∃ r, Minv5.inverse = some r :=
  (claim3_inverse_all_or_nothing Minv5).2 Minv5_invertible

/-- C7: transpose is an involution under element-wise equality. -/
theorem claim7_transpose_involution (m : Matrix4x4) :
    m.transpose.transpose = m := by
  apply Matrix4x4.data_ext
  intro y x
  rw [Matrix4x4.transpose_data, Matrix4x4.transpose_data]

/-- C8: the transpose holds entry (col, row) of the input at (row, col), and
diagonal entries are unchanged. -/
theorem claim8_transpose_entries (m : Matrix4x4) (row col : Nat)
    (hr : row < 4) (hc : col < 4) :
    m.transpose.get row col = m.get col row ∧
      (row = col → m.transpose.get row col = m.get row col) := by
  have h1 : m.transpose.get row col =
      some (m.transpose.data (Matrix4x4.toI ⟨row, hr⟩ ⟨col, hc⟩)) := by
    rw [Matrix4x4.get, dif_pos (by simp only [to_index]; omega)]
    rfl
  have h2 : m.get col row =
      some (m.data (Matrix4x4.toI ⟨col, hc⟩ ⟨row, hr⟩)) := by
    rw [Matrix4x4.get, dif_pos (by simp only [to_index]; omega)]
    rfl
  have h3 : m.transpose.get row col = m.get col row := by
    rw [h1, h2, Matrix4x4.transpose_data]
  exact ⟨h3, fun he => by rw [h3, he]⟩

theorem claim8_witness :
    M4071.transpose.get 1 2 = M4071.get 2 1 ∧
      ((1 : Nat) = 2 → M4071.transpose.get 1 2 = M4071.get 1 2) :=
  claim8_transpose_entries M4071 1 2 (by omega) (by omega)

/-- C9: get is inconsistent outside the range: with col at least 4 but flat
offset row*4+col still below 16 it silently returns the entry at that flat
offset, which lies in a different row; it fails (panics) exactly when the
flat offset reaches 16. -/
theorem claim9_get_out_of_range (m : Matrix4x4) (row col : Nat) :
    (∀ h2 : to_index 4 row col < 16, 4 ≤ col →
      m.get row col = some (m.data ⟨to_index 4 row col, h2⟩) ∧
        (to_index 4 row col) / 4 ≠ row) ∧
    (m.get row col = none ↔ 16 ≤ to_index 4 row col) := by
  constructor
  · intro h2 hc
    constructor
    · rw [Matrix4x4.get, dif_pos h2]
    · simp only [to_index] at *
      omega
  · rw [Matrix4x4.get]
    split
    · constructor
      · intro h; exact Option.noConfusion h
      · omega
    · simp only [true_iff]
      omega

theorem claim9_witness :
    (M4071.get 0 5 = some (M4071.data ⟨to_index 4 0 5, by decide⟩) ∧
      to_index 4 0 5 / 4 ≠ 0) ∧
    (M4071.get 4 0 = none ↔ 16 ≤ to_index 4 4 0) :=
  ⟨(claim9_get_out_of_range M4071 0 5).1 (by decide) (by decide),
    (claim9_get_out_of_range M4071 4 0).2⟩

end Claims

end RayTracing
